import Mathlib

set_option maxHeartbeats 1000000

/-!
Verification of the ManVRelay client-side protocol helpers.

The repository is a browser dashboard for operating a Nostr relay.  Its
protocol core consists of two helpers that are duplicated (textually
identically) across `UserManagement.tsx`, `ConnectionStatus.tsx` and the
events/moderation components:

* `createAuthHeader` / `createNip98Auth`: builds a NIP-98 attestation event
  (kind 27235, tags `u`/`method`, optional `payload` SHA-256 tag), has it
  signed by `window.nostr.signEvent`, and returns
  `Nostr <base64(JSON.stringify(signedEvent))>`.
* `callRelayAPI`: rewrites the relay URL scheme, serializes
  `\x7bmethod, params\x7d` with `JSON.stringify`, POSTs it with the auth
  header, and unwraps the `result`/`error` fields of the JSON response.
  The `EventsList` variant additionally catches every failure and returns
  `[]` when the method name starts with `list`.

This file gives a shallow embedding of those helpers and proves the frozen
claims about them.  Modelling conventions:

* JSON values are `Json` below (defined mutually with the list types of
  its array elements and object members); numbers are integers (`Int`).
  The dashboard only ever serializes integers (`parseInt` results and the
  query `limit`), so the fractional/exponent part of the JSON number
  grammar never arises in this program and is not modelled.
* `jsonStringify` follows `JSON.stringify`: no whitespace, strings escaped
  exactly as V8 does (`\"`, `\\`, `\b`, `\t`, `\n`, `\f`, `\r`, and
  `\u00xx` for the remaining control characters; all other characters are
  emitted verbatim).
* `jsonParse` follows `JSON.parse` restricted to whitespace-free
  documents; every document parsed in this file is the output of a JSON
  serializer (`JSON.stringify` on either end of the wire), and those
  contain no inter-token whitespace.
* `crypto.subtle.digest('SHA-256', ...)` is modelled by an executable
  FIPS 180-4 SHA-256 over byte lists, `TextEncoder().encode` by UTF-8
  encoding, and `btoa` by base64 over Latin-1 code points, failing (as the
  browser does, with `InvalidCharacterError`) on any character above
  U+00FF.
* The ambient browser state (`window.nostr`, `fetch`, `Date.now`) is a
  `World` record; `callRelayAPI` returns its result together with the
  list of fetch calls it issued, so "no network request is observed" is
  the statement that this trace is empty.
-/
/-! ### JSON values -/
mutual
/-- A JSON value as produced by `JSON.parse`.  Numbers are restricted to
integers: the only numbers this program ever serializes are `parseInt`
results and integer limits. -/
inductive Json where
  | null : Json
  | bool : Bool → Json
  | num : Int → Json
  | str : String → Json
  | arr : JsonList → Json
  | obj : JsonFields → Json
deriving Repr, DecidableEq

/-- The elements of a JSON array, in order. -/
inductive JsonList where
  | nil : JsonList
  | cons : Json → JsonList → JsonList
deriving Repr, DecidableEq

/-- The members of a JSON object, in order of appearance. -/
inductive JsonFields where
  | nil : JsonFields
  | cons : String → Json → JsonFields → JsonFields
deriving Repr, DecidableEq
end

/-- Build a `JsonList` from an ordinary list. -/
def jsonListOf : List Json → JsonList
  | [] => .nil
  | j :: js => .cons j (jsonListOf js)

/-- Build `JsonFields` from an ordinary association list. -/
def jsonFieldsOf : List (String × Json) → JsonFields
  | [] => .nil
  | (k, v) :: fs => .cons k v (jsonFieldsOf fs)

/-- A JSON array given by an ordinary list of values. -/
def jsonArr (l : List Json) : Json := .arr (jsonListOf l)

/-- A JSON object given by an ordinary association list. -/
def jsonObj (l : List (String × Json)) : Json := .obj (jsonFieldsOf l)

/-- The opening-brace character, U+007B. -/
def braceL : Char := Char.ofNat 123

/-- The closing-brace character, U+007D. -/
def braceR : Char := Char.ofNat 125

/-! ### Serialization: `JSON.stringify` -/
/-- Decimal digit character for `n < 10`. -/
def digitCh (n : Nat) : Char := Char.ofNat (48 + n)

/-- Lowercase hexadecimal digit character for `n < 16`, as produced by
`Number.prototype.toString(16)`. -/
def hexDigitCh (n : Nat) : Char :=
  if n < 10 then Char.ofNat (48 + n) else Char.ofNat (87 + n)

/-- Decimal digit characters, most significant first; the `fuel` argument
only makes the recursion structural and any fuel above `n` is enough. -/
def natCharsF : Nat → Nat → List Char
  | 0, _ => []
  | f + 1, n => if n < 10 then [digitCh n] else natCharsF f (n / 10) ++ [digitCh (n % 10)]

/-- Decimal digit characters of a natural number, most significant first. -/
def natChars (n : Nat) : List Char := natCharsF (n + 1) n

/-- Decimal characters of an integer: optional minus sign, then digits.
This is what `JSON.stringify` emits for an integral JS number. -/
def intChars (i : Int) : List Char :=
  if i < 0 then '-' :: natChars i.natAbs else natChars i.natAbs

/-- How `JSON.stringify` escapes one character inside a string literal:
quote and backslash get a backslash, the named control characters use
their short escapes, the remaining control characters use `\u00xx`, and
everything else (including all non-ASCII) is emitted verbatim. -/
def jsEscapeChar (c : Char) : List Char :=
  if c = '"' then ['\\', '"']
  else if c = '\\' then ['\\', '\\']
  else if c.toNat = 8 then ['\\', 'b']
  else if c.toNat = 9 then ['\\', 't']
  else if c.toNat = 10 then ['\\', 'n']
  else if c.toNat = 12 then ['\\', 'f']
  else if c.toNat = 13 then ['\\', 'r']
  else if c.toNat < 32 then
    ['\\', 'u', '0', '0', hexDigitCh (c.toNat / 16), hexDigitCh (c.toNat % 16)]
  else [c]

/-- Escape every character of a string body. -/
def escapeList : List Char → List Char
  | [] => []
  | c :: cs => jsEscapeChar c ++ escapeList cs

/-- A JSON string literal: quote, escaped body, quote. -/
def stringifyString (s : String) : List Char :=
  '"' :: (escapeList s.data ++ ['"'])

mutual
/-- `JSON.stringify`, producing a character list (no whitespace). -/
def stringifyChars : Json → List Char
  | .null => "null".data
  | .bool true => "true".data
  | .bool false => "false".data
  | .num i => intChars i
  | .str s => stringifyString s
  | .arr es => '[' :: (stringifyItems es ++ [']'])
  | .obj fs => braceL :: (stringifyFields fs ++ [braceR])

/-- Comma-separated serialization of array elements. -/
def stringifyItems : JsonList → List Char
  | .nil => []
  | .cons e es => stringifyChars e ++ stringifyItemsTail es

/-- The remaining array elements, each preceded by a comma. -/
def stringifyItemsTail : JsonList → List Char
  | .nil => []
  | .cons e es => ',' :: (stringifyChars e ++ stringifyItemsTail es)

/-- Comma-separated serialization of object members. -/
def stringifyFields : JsonFields → List Char
  | .nil => []
  | .cons k v fs => stringifyString k ++ ':' :: (stringifyChars v ++ stringifyFieldsTail fs)

/-- The remaining object members, each preceded by a comma. -/
def stringifyFieldsTail : JsonFields → List Char
  | .nil => []
  | .cons k v fs => ',' :: (stringifyString k ++ ':' :: (stringifyChars v ++ stringifyFieldsTail fs))
end

/-- `JSON.stringify` as a string-valued function. -/
def jsonStringify (j : Json) : String := String.mk (stringifyChars j)

/-! ### Deserialization: `JSON.parse` (whitespace-free documents) -/
/-- Is this an ASCII decimal digit? -/
def isDigitCh (c : Char) : Bool := 48 ≤ c.toNat && c.toNat ≤ 57

/-- Numeric value of a decimal digit character. -/
def digitVal (c : Char) : Nat := c.toNat - 48

/-- Value of a hexadecimal digit character (either case), if it is one. -/
def hexNibble (c : Char) : Option Nat :=
  if 48 ≤ c.toNat && c.toNat ≤ 57 then some (c.toNat - 48)
  else if 97 ≤ c.toNat && c.toNat ≤ 102 then some (c.toNat - 87)
  else if 65 ≤ c.toNat && c.toNat ≤ 70 then some (c.toNat - 55)
  else none

/-- The character a short escape stands for, if the escape is legal. -/
def escCode : Char → Option Char
  | '"' => some '"'
  | '\\' => some '\\'
  | '/' => some '/'
  | 'b' => some (Char.ofNat 8)
  | 'f' => some (Char.ofNat 12)
  | 'n' => some (Char.ofNat 10)
  | 'r' => some (Char.ofNat 13)
  | 't' => some (Char.ofNat 9)
  | _ => none

/-- Parse the body of a string literal after its opening quote, returning
the decoded characters and the input after the closing quote. -/
def parseStringRest : List Char → Option (List Char × List Char)
  | [] => none
  | c :: r =>
    if c = '"' then some ([], r)
    else if c = '\\' then
      match r with
      | 'u' :: h1 :: h2 :: h3 :: h4 :: r2 =>
        match hexNibble h1, hexNibble h2, hexNibble h3, hexNibble h4 with
        | some v1, some v2, some v3, some v4 =>
            (parseStringRest r2).map
              (fun p => (Char.ofNat (v1 * 4096 + v2 * 256 + v3 * 16 + v4) :: p.1, p.2))
        | _, _, _, _ => none
      | e :: r2 =>
        match escCode e with
        | some ch => (parseStringRest r2).map (fun p => (ch :: p.1, p.2))
        | none => none
      | [] => none
    else (parseStringRest r).map (fun p => (c :: p.1, p.2))

/-- Consume a maximal run of decimal digits, accumulating their value. -/
def munchDigits (acc : Nat) : List Char → Nat × List Char
  | c :: r => if isDigitCh c then munchDigits (acc * 10 + digitVal c) r else (acc, c :: r)
  | [] => (acc, [])

/-- Parse a natural number (at least one leading digit required). -/
def parseNatNum : List Char → Option (Nat × List Char)
  | c :: r => if isDigitCh c then some (munchDigits (digitVal c) r) else none
  | [] => none

mutual
/-- Recursive-descent parser for one JSON value.  `fuel` only bounds the
recursion (it is set high enough at the top level); the grammar is that of
`JSON.parse` on whitespace-free documents with integer numbers. -/
def parseJsonValue : Nat → List Char → Option (Json × List Char)
  | 0, _ => none
  | _ + 1, [] => none
  | fuel + 1, c :: r =>
    if isDigitCh c then
      (parseNatNum (c :: r)).map (fun p => (Json.num (p.1 : Int), p.2))
    else if c = '-' then
      (parseNatNum r).map (fun p => (Json.num (-(p.1 : Int)), p.2))
    else if c = '"' then
      (parseStringRest r).map (fun p => (Json.str (String.mk p.1), p.2))
    else if c = '[' then
      match r with
      | [] => none
      | c2 :: r2 =>
        if c2 = ']' then some (Json.arr .nil, r2)
        else (parseJsonItems fuel (c2 :: r2)).map (fun p => (Json.arr p.1, p.2))
    else if c = braceL then
      match r with
      | [] => none
      | c2 :: r2 =>
        if c2 = braceR then some (Json.obj .nil, r2)
        else (parseJsonFields fuel (c2 :: r2)).map (fun p => (Json.obj p.1, p.2))
    else
      match c, r with
      | 'n', 'u' :: 'l' :: 'l' :: r2 => some (Json.null, r2)
      | 't', 'r' :: 'u' :: 'e' :: r2 => some (Json.bool true, r2)
      | 'f', 'a' :: 'l' :: 's' :: 'e' :: r2 => some (Json.bool false, r2)
      | _, _ => none

/-- Parse a nonempty comma-separated element list up to the closing `]`. -/
def parseJsonItems : Nat → List Char → Option (JsonList × List Char)
  | 0, _ => none
  | fuel + 1, cs =>
    match parseJsonValue fuel cs with
    | none => none
    | some (v, r) =>
      match r with
      | [] => none
      | c :: r2 =>
        if c = ',' then (parseJsonItems fuel r2).map (fun p => (JsonList.cons v p.1, p.2))
        else if c = ']' then some (JsonList.cons v .nil, r2)
        else none

/-- Parse a nonempty comma-separated member list up to the closing brace. -/
def parseJsonFields : Nat → List Char → Option (JsonFields × List Char)
  | 0, _ => none
  | fuel + 1, cs =>
    match cs with
    | '"' :: r =>
      match parseStringRest r with
      | none => none
      | some (k, r1) =>
        match r1 with
        | ':' :: r2 =>
          match parseJsonValue fuel r2 with
          | none => none
          | some (v, r3) =>
            match r3 with
            | [] => none
            | c :: r4 =>
              if c = ',' then
                (parseJsonFields fuel r4).map
                  (fun p => (JsonFields.cons (String.mk k) v p.1, p.2))
              else if c = braceR then some (JsonFields.cons (String.mk k) v .nil, r4)
              else none
        | _ => none
    | _ => none
end

/-- `JSON.parse` of a complete document: one value consuming all input. -/
def jsonParse (s : String) : Option Json :=
  match parseJsonValue (s.data.length + 1) s.data with
  | some (j, []) => some j
  | _ => none

/-! ### The serializer/parser round trip

`jsonParse (jsonStringify j) = some j` for every value `j`: what
`JSON.stringify` sends, `JSON.parse` on the other side reads back
unchanged.  The claims about the request body (C1) and the response
unwrapping (C4) rest on this. -/
/-- A suffix that cannot extend a parsed number: empty, or starting with
a non-digit.  Every delimiter following a serialized value qualifies. -/
def nonDigitStart : List Char → Bool
  | [] => true
  | c :: _ => !(isDigitCh c)

/-- The accumulator step of decimal parsing. -/
def decAcc (a : Nat) (c : Char) : Nat := a * 10 + digitVal c

/-! ### SHA-256 (FIPS 180-4), hex encoding, UTF-8, and base64

`createAuthHeader` hashes the request body with
`crypto.subtle.digest('SHA-256', new TextEncoder().encode(payload))` and
hex-encodes the digest bytes with `toString(16).padStart(2, '0')`; the
signed event is serialized and passed through `btoa`.  All of this is
modelled executably below. -/
/-- Truncation to a 32-bit word. -/
def w32 (n : Nat) : Nat := n % 4294967296

/-- Right rotation of a 32-bit word. -/
def rotr32 (k x : Nat) : Nat := w32 ((x >>> k) ||| (x <<< (32 - k)))

def sha256Ch (e f g : Nat) : Nat := (e &&& f) ^^^ ((e ^^^ 4294967295) &&& g)

def sha256Maj (x y z : Nat) : Nat := ((x &&& y) ^^^ (x &&& z)) ^^^ (y &&& z)

def bigSigma0 (x : Nat) : Nat := rotr32 2 x ^^^ rotr32 13 x ^^^ rotr32 22 x

def bigSigma1 (x : Nat) : Nat := rotr32 6 x ^^^ rotr32 11 x ^^^ rotr32 25 x

def smallSigma0 (x : Nat) : Nat := rotr32 7 x ^^^ rotr32 18 x ^^^ (x >>> 3)

def smallSigma1 (x : Nat) : Nat := rotr32 17 x ^^^ rotr32 19 x ^^^ (x >>> 10)

/-- The four big-endian bytes of a 32-bit word. -/
def be32Bytes (w : Nat) : List Nat :=
  [w / 16777216 % 256, w / 65536 % 256, w / 256 % 256, w % 256]

/-- The eight big-endian bytes of a 64-bit length field. -/
def be64Bytes (n : Nat) : List Nat :=
  [n / 72057594037927936 % 256, n / 281474976710656 % 256, n / 1099511627776 % 256,
   n / 4294967296 % 256, n / 16777216 % 256, n / 65536 % 256, n / 256 % 256, n % 256]

/-- Number of zero bytes inserted so the padded length is 56 mod 64. -/
def sha256PadZeros (len : Nat) : Nat := (119 - len % 64) % 64

/-- FIPS 180-4 padding: `0x80`, zeros, then the bit length, big-endian. -/
def sha256Pad (msg : List Nat) : List Nat :=
  msg ++ 128 :: (List.replicate (sha256PadZeros msg.length) 0 ++ be64Bytes (8 * msg.length))

/-- Split into 64-byte blocks (the fuel is only for structural recursion;
`bs.length` steps always suffice since every step consumes a byte). -/
def chunks64F : Nat → List Nat → List (List Nat)
  | 0, _ => []
  | _ + 1, [] => []
  | f + 1, b :: rest => (b :: rest).take 64 :: chunks64F f ((b :: rest).drop 64)

def chunks64 (bs : List Nat) : List (List Nat) := chunks64F bs.length bs

/-- Big-endian 32-bit words of a block. -/
def toWords32 : List Nat → List Nat
  | b0 :: b1 :: b2 :: b3 :: rest => (((b0 * 256 + b1) * 256 + b2) * 256 + b3) :: toWords32 rest
  | _ => []

/-- Extend the 16 block words by `count` further schedule words. -/
def sha256ExtendAux : Nat → List Nat → List Nat
  | 0, ws => ws
  | c + 1, ws =>
      let n := ws.length
      sha256ExtendAux c (ws ++ [w32 (smallSigma1 (ws.getD (n - 2) 0) + ws.getD (n - 7) 0
        + smallSigma0 (ws.getD (n - 15) 0) + ws.getD (n - 16) 0)])

def sha256Schedule (block : List Nat) : List Nat := sha256ExtendAux 48 (toWords32 block)

/-- The 64 round constants. -/
def sha256K : List Nat :=
  [1116352408, 1899447441, 3049323471, 3921009573,
   961987163, 1508970993, 2453635748, 2870763221,
   3624381080, 310598401, 607225278, 1426881987,
   1925078388, 2162078206, 2614888103, 3248222580,
   3835390401, 4022224774, 264347078, 604807628,
   770255983, 1249150122, 1555081692, 1996064986,
   2554220882, 2821834349, 2952996808, 3210313671,
   3336571891, 3584528711, 113926993, 338241895,
   666307205, 773529912, 1294757372, 1396182291,
   1695183700, 1986661051, 2177026350, 2456956037,
   2730485921, 2820302411, 3259730800, 3345764771,
   3516065817, 3600352804, 4094571909, 275423344,
   430227734, 506948616, 659060556, 883997877,
   958139571, 1322822218, 1537002063, 1747873779,
   1955562222, 2024104815, 2227730452, 2361852424,
   2428436474, 2756734187, 3204031479, 3329325298]

/-- The compression state: the working variables a through h. -/
def Sha256St : Type := Nat × Nat × Nat × Nat × Nat × Nat × Nat × Nat

def sha256Init : Sha256St :=
  (1779033703, 3144134277, 1013904242, 2773480762, 1359893119, 2600822924, 528734635, 1541459225)

/-- One compression round on `(k, w)`. -/
def sha256Round (st : Sha256St) (kw : Nat × Nat) : Sha256St :=
  match st, kw with
  | (a, b, c, d, e, f, g, h), (k, w) =>
    let t1 := w32 (h + bigSigma1 e + sha256Ch e f g + k + w)
    let t2 := w32 (bigSigma0 a + sha256Maj a b c)
    (w32 (t1 + t2), a, b, c, w32 (d + t1), e, f, g)

/-- Process one 64-byte block. -/
def sha256Block (st : Sha256St) (block : List Nat) : Sha256St :=
  match st, (sha256K.zip (sha256Schedule block)).foldl sha256Round st with
  | (a0, b0, c0, d0, e0, f0, g0, h0), (a, b, c, d, e, f, g, h) =>
    (w32 (a0 + a), w32 (b0 + b), w32 (c0 + c), w32 (d0 + d),
     w32 (e0 + e), w32 (f0 + f), w32 (g0 + g), w32 (h0 + h))

/-- SHA-256 of a byte list, as a 32-byte list. -/
def sha256 (msg : List Nat) : List Nat :=
  match (chunks64 (sha256Pad msg)).foldl sha256Block sha256Init with
  | (a, b, c, d, e, f, g, h) =>
    be32Bytes a ++ be32Bytes b ++ be32Bytes c ++ be32Bytes d
      ++ be32Bytes e ++ be32Bytes f ++ be32Bytes g ++ be32Bytes h

/-- Hex digits of one byte, zero-padded to width 2 exactly as
`b.toString(16).padStart(2, '0')` renders a byte. -/
def byteHexChars (b : Nat) : List Char := [hexDigitCh (b / 16), hexDigitCh (b % 16)]

def bytesToHex : List Nat → List Char
  | [] => []
  | b :: bs => byteHexChars b ++ bytesToHex bs

/-- UTF-8 bytes of one scalar value, as `TextEncoder` produces them. -/
def utf8EncodeChar (c : Char) : List Nat :=
  let n := c.toNat
  if n < 128 then [n]
  else if n < 2048 then [192 + n / 64, 128 + n % 64]
  else if n < 65536 then [224 + n / 4096, 128 + n / 64 % 64, 128 + n % 64]
  else [240 + n / 262144, 128 + n / 4096 % 64, 128 + n / 64 % 64, 128 + n % 64]

def utf8BytesList : List Char → List Nat
  | [] => []
  | c :: cs => utf8EncodeChar c ++ utf8BytesList cs

/-- `TextEncoder().encode`, as a byte list. -/
def utf8Bytes (s : String) : List Nat := utf8BytesList s.data

/-- The hex-encoded SHA-256 digest of a string, exactly the value computed
for the NIP-98 `payload` tag. -/
def sha256HexOfString (s : String) : String :=
  String.mk (bytesToHex (sha256 (utf8Bytes s)))

/-- The base64 alphabet. -/
def b64Char (n : Nat) : Char :=
  if n < 26 then Char.ofNat (65 + n)
  else if n < 52 then Char.ofNat (97 + (n - 26))
  else if n < 62 then Char.ofNat (48 + (n - 52))
  else if n = 62 then '+' else '/'

/-- Standard base64 with padding over a byte list. -/
def base64Chars : List Nat → List Char
  | [] => []
  | [b1] => [b64Char (b1 / 4), b64Char (b1 % 4 * 16), '=', '=']
  | [b1, b2] => [b64Char (b1 / 4), b64Char (b1 % 4 * 16 + b2 / 16), b64Char (b2 % 16 * 4), '=']
  | b1 :: b2 :: b3 :: rest =>
      b64Char (b1 / 4) :: b64Char (b1 % 4 * 16 + b2 / 16)
        :: b64Char (b2 % 16 * 4 + b3 / 64) :: b64Char (b3 % 64) :: base64Chars rest

/-- `window.btoa`: base64 of the Latin-1 code points, failing (the browser
throws `InvalidCharacterError`) when some character is above U+00FF. -/
def btoa (s : String) : Option String :=
  if s.data.all (fun c => c.toNat ≤ 255) then
    some (String.mk (base64Chars (s.data.map Char.toNat)))
  else none

/-! ### The relay-URL scheme rewrite

`callRelayAPI` computes `relayUrl.replace(/^wss?:\/\//, 'https://')`: an
anchored regex match, so a leading `ws://` or `wss://` becomes `https://`
and any other string is unchanged. -/
/-- Does the character list begin with `ws://` or `wss://`?  (The regex
`/^wss?:\/\//`.) -/
def hasWsScheme : List Char → Bool
  | 'w' :: 's' :: 's' :: ':' :: '/' :: '/' :: _ => true
  | 'w' :: 's' :: ':' :: '/' :: '/' :: _ => true
  | _ => false

/-- `replace(/^wss?:\/\//, 'https://')` on the character list. -/
def httpUrlChars : List Char → List Char
  | 'w' :: 's' :: 's' :: ':' :: '/' :: '/' :: rest =>
      'h' :: 't' :: 't' :: 'p' :: 's' :: ':' :: '/' :: '/' :: rest
  | 'w' :: 's' :: ':' :: '/' :: '/' :: rest =>
      'h' :: 't' :: 't' :: 'p' :: 's' :: ':' :: '/' :: '/' :: rest
  | cs => cs

/-- The WebSocket-to-HTTPS rewrite applied to the relay URL. -/
def httpUrlOfRelayUrl (relayUrl : String) : String := String.mk (httpUrlChars relayUrl.data)

/-! ### The RPC envelope -/
/-- One entry of the `params` array of `callRelayAPI`: the TypeScript type
is `(string | number | undefined)[]`.  Numbers are integers (the UI only
ever passes `parseInt` results and integral limits). -/
inductive RpcParam where
  | str : String → RpcParam
  | num : Int → RpcParam
  | undef : RpcParam
deriving Repr, DecidableEq

/-- How `JSON.stringify` renders one `params` entry: an omitted/`undefined`
entry inside an array serializes as `null`, holding its position. -/
def RpcParam.toJson : RpcParam → Json
  | .str s => Json.str s
  | .num i => Json.num i
  | .undef => Json.null

def rpcParamsJson (ps : List RpcParam) : JsonList := jsonListOf (ps.map RpcParam.toJson)

/-- The JSON value `JSON.stringify` receives: `\x7bmethod, params\x7d` with
the two properties in insertion order. -/
def rpcRequestJson (method : String) (params : List RpcParam) : Json :=
  Json.obj (.cons "method" (Json.str method)
    (.cons "params" (Json.arr (rpcParamsJson params)) .nil))

/-- The request body: `JSON.stringify(\x7b method, params \x7d)`. -/
def requestBody (method : String) (params : List RpcParam) : String :=
  jsonStringify (rpcRequestJson method params)

/-! ### The NIP-98 attestation event and auth header -/
/-- The unsigned attestation record `createAuthHeader` builds: the fields
are `kind`, `content`, `tags`, `created_at` exactly as in the source. -/
structure AuthEvent where
  kind : Nat
  content : String
  tags : List (List String)
  created_at : Nat
deriving Repr, DecidableEq

/-- The optional `payload` tag.  The source guards it with `if (payload)`;
JS truthiness makes the empty string count as absent. -/
def payloadTag : Option String → List (List String)
  | none => []
  | some p => if p = "" then [] else [["payload", sha256HexOfString p]]

/-- The attestation before signing: kind 27235, empty content, `u` and
`method` tags (plus the payload tag), `created_at` =
`Math.floor(Date.now() / 1000)`. -/
def authEvent (url method : String) (payload : Option String) (nowMs : Nat) : AuthEvent :=
  ⟨27235, "", [["u", url], ["method", method]] ++ payloadTag payload, nowMs / 1000⟩

/-- The signer capability `window.nostr.signEvent`: the extension returns
the signed event as an arbitrary JSON value (its own property order). -/
def Signer : Type := AuthEvent → Json

/-- `createAuthHeader` (named `createNip98Auth` in the EventsList file,
with an identical body): fail without the extension, sign the attestation,
serialize, base64, and prefix the `Nostr` scheme label. -/
def createAuthHeader (signer : Option Signer) (url method : String)
    (payload : Option String) (nowMs : Nat) : Except String String :=
  match signer with
  | none => .error "NIP-07 extension not found"
  | some sign =>
    match btoa (jsonStringify (sign (authEvent url method payload nowMs))) with
    | none => .error "InvalidCharacterError"
    | some b64 => .ok ("Nostr " ++ b64)

/-- The EventsList file's `createNip98Auth` is character-for-character the
same function as `createAuthHeader`. -/
def createNip98Auth : Option Signer → String → String → Option String → Nat →
    Except String String := createAuthHeader

/-! ### The administrative RPC caller -/
/-- One observed `fetch` invocation. -/
structure FetchCall where
  url : String
  method : String
  contentType : String
  authorization : String
  body : String
deriving Repr, DecidableEq

/-- An HTTP response as the `fetch` promise resolves it. -/
structure HttpResponse where
  status : Nat
  statusText : String
  body : String
deriving Repr, DecidableEq

/-- What awaiting `fetch` can produce: a response, or a rejected promise
(network failure), which `await` turns into a thrown error. -/
inductive FetchOutcome where
  | response : HttpResponse → FetchOutcome
  | networkError : String → FetchOutcome

/-- The ambient browser state: the optional `window.nostr` signer, the
network, and the clock. -/
structure World where
  signer : Option Signer
  fetch : FetchCall → FetchOutcome
  nowMs : Nat

/-- `Response.ok`: status in the inclusive range 200 to 299 (the Fetch
standard's definition). -/
def responseOk (r : HttpResponse) : Bool := 200 ≤ r.status && r.status ≤ 299

/-- The message of the error thrown on a non-ok response:
`` `HTTP ${response.status}: ${response.statusText}` ``. -/
def httpErrorMessage (status : Nat) (statusText : String) : String :=
  "HTTP " ++ String.mk (natChars status) ++ ": " ++ statusText

/-- JS truthiness of a JSON value (`if (result.error)`). -/
def jsTruthy : Json → Bool
  | .null => false
  | .bool b => b
  | .num i => decide (i ≠ 0)
  | .str s => decide (s ≠ "")
  | .arr _ => true
  | .obj _ => true

mutual
/-- JS `String(...)` coercion of a JSON value, the message carried by
`new Error(result.error)`. -/
def jsStr : Json → String
  | .null => "null"
  | .bool true => "true"
  | .bool false => "false"
  | .num i => String.mk (intChars i)
  | .str s => s
  | .arr es => jsStrItems es
  | .obj _ => "[object Object]"

/-- Array coercion: elements joined with commas (null elements empty). -/
def jsStrItems : JsonList → String
  | .nil => ""
  | .cons e es => jsStrElem e ++ jsStrItemsTail es

def jsStrItemsTail : JsonList → String
  | .nil => ""
  | .cons e es => "," ++ (jsStrElem e ++ jsStrItemsTail es)

/-- One array element under `String(...)`: null renders empty. -/
def jsStrElem : Json → String
  | .null => ""
  | .bool true => "true"
  | .bool false => "false"
  | .num i => String.mk (intChars i)
  | .str s => s
  | .arr es => jsStrItems es
  | .obj _ => "[object Object]"
end

/-- Lookup of an object member: a duplicate key resolves to its last
occurrence, as after `JSON.parse`. -/
def jsonFieldsGet : JsonFields → String → Option Json
  | .nil, _ => none
  | .cons k v fs, key =>
    match jsonFieldsGet fs key with
    | some w => some w
    | none => if k = key then some v else none

/-- The value at a property of a non-null JSON value: objects look their
members up; numbers, strings, booleans and arrays simply lack the
property (`none` is JS `undefined`).  `callRelayAPI` reaches properties
through `jsGetProp` below, which additionally models the TypeError a
property access on `null` throws; on non-null values the two agree
(`jsGetProp_of_ne_null`). -/
def jsonGet : Json → String → Option Json
  | .obj fs, key => jsonFieldsGet fs key
  | _, _ => none

/-- JS property access (`result.error`, `result.result`): on `null` it
throws a TypeError (message as V8 words it; the exact text is
engine-specific); on any other value it yields the property's value, or
`undefined` when there is none. -/
def jsGetProp (j : Json) (key : String) : Except String (Option Json) :=
  match j with
  | .null => .error ("TypeError: Cannot read properties of null (reading '" ++ key ++ "')")
  | .obj fs => .ok (jsonFieldsGet fs key)
  | _ => .ok none

/-- `callRelayAPI` as in `UserManagement.tsx`, `ConnectionStatus.tsx` and
`EventModeration`: build the HTTP URL and body, build the auth header
(failing before any fetch if that fails), POST, throw on a non-ok status,
parse the JSON, throw on a truthy `error` field, return the `result`
field.  The second component lists the fetch calls issued. -/
def callRelayAPI (w : World) (relayUrl method : String) (params : List RpcParam) :
    Except String (Option Json) × List FetchCall :=
  let httpUrl := httpUrlOfRelayUrl relayUrl
  let payload := requestBody method params
  match createAuthHeader w.signer httpUrl "POST" (some payload) w.nowMs with
  | .error e => (.error e, [])
  | .ok authHeader =>
    let call : FetchCall := ⟨httpUrl, "POST", "application/nostr+json+rpc", authHeader, payload⟩
    match w.fetch call with
    | .networkError e => (.error e, [call])
    | .response r =>
      if responseOk r then
        match jsonParse r.body with
        | none => (.error "SyntaxError: Unexpected token in JSON", [call])
        | some result =>
          match jsGetProp result "error" with
          | .error e => (.error e, [call])
          | .ok (some errv) =>
            if jsTruthy errv then (.error (jsStr errv), [call])
            else
              match jsGetProp result "result" with
              | .error e => (.error e, [call])
              | .ok v => (.ok v, [call])
          | .ok none =>
            match jsGetProp result "result" with
            | .error e => (.error e, [call])
            | .ok v => (.ok v, [call])
      else (.error (httpErrorMessage r.status r.statusText), [call])

/-- `method.startsWith('list')`. -/
def startsWithList (method : String) : Bool :=
  match method.data with
  | 'l' :: 'i' :: 's' :: 't' :: _ => true
  | _ => false

/-- The EventsList variant of `callRelayAPI`: the same body inside
`try/catch`; a caught failure yields `[]` for `list*` methods and is
rethrown otherwise. -/
def callRelayAPIEvents (w : World) (relayUrl method : String) (params : List RpcParam) :
    Except String (Option Json) × List FetchCall :=
  let r := callRelayAPI w relayUrl method params
  match r.1 with
  | .error e =>
    (if startsWithList method then .ok (some (Json.arr .nil)) else .error e, r.2)
  | .ok _ => r

/-! ### The EventsList query sort -/
/-- The fields of a fetched Nostr event the dashboard displays; only
`created_at` matters to the sort. -/
structure NostrEvent where
  id : String
  pubkey : String
  created_at : Nat
  kind : Nat
  content : String
deriving Repr, DecidableEq

/-- Insertion into a list kept in non-increasing `created_at` order. -/
def insertByCreatedAtDesc (e : NostrEvent) : List NostrEvent → List NostrEvent
  | [] => [e]
  | x :: xs =>
    if x.created_at ≤ e.created_at then e :: x :: xs
    else x :: insertByCreatedAtDesc e xs

/-- `events.sort((a, b) => b.created_at - a.created_at)`: a sort of the
fetched events under the newest-first comparator.  JS `Array.sort` is
implementation-defined up to the comparator order, so any sort realizes
it; insertion sort keeps the model executable. -/
def sortEventsByCreatedAtDesc : List NostrEvent → List NostrEvent
  | [] => []
  | e :: es => insertByCreatedAtDesc e (sortEventsByCreatedAtDesc es)

/-! ### Concrete values used by the claim theorems -/

/-- Positional access into a JSON array's elements. -/
def JsonList.get? : JsonList → Nat → Option Json
  | .nil, _ => none
  | .cons e _, 0 => some e
  | .cons _ es, n + 1 => JsonList.get? es n

/-- A moderation-list response: an array of pubkey/reason records. -/
def sampleResultJson : Json :=
  jsonObj [("result", jsonArr [jsonObj [("pubkey", Json.str "npub1alice"),
                                        ("reason", Json.str "spam")]])]

/-- A response that carries a top-level error string. -/
def sampleErrorJson : Json := jsonObj [("error", Json.str "unauthorized")]

/-- A browser state whose relay answers 200 with `sampleResultJson`. -/
def resultWorld : World :=
  ⟨some (fun _ => Json.null),
   fun _ => FetchOutcome.response ⟨200, "OK", jsonStringify sampleResultJson⟩, 0⟩

/-- A browser state whose relay answers 200 with `sampleErrorJson`. -/
def errorWorld : World :=
  ⟨some (fun _ => Json.null),
   fun _ => FetchOutcome.response ⟨200, "OK", jsonStringify sampleErrorJson⟩, 0⟩

/-- A browser state whose relay answers 200 with the body `null`. -/
def nullBodyWorld : World :=
  ⟨some (fun _ => Json.null),
   fun _ => FetchOutcome.response ⟨200, "OK", jsonStringify Json.null⟩, 0⟩

/-- A signed event a NIP-07 extension could return for a relay whose URL
contains a character above U+00FF. -/
def wideSignedEvent : Json :=
  jsonObj [("id", Json.str "00ab"), ("pubkey", Json.str "00cd"),
           ("kind", Json.num 27235), ("content", Json.str ""),
           ("tags", jsonArr [jsonArr [Json.str "u", Json.str "https://日relay.example/"]]),
           ("sig", Json.str "00ef")]

/-! ### Theorems -/

example : jsonParse (jsonStringify (jsonArr [Json.num 5, Json.null, Json.str "a b"]))
    = some (jsonArr [Json.num 5, Json.null, Json.str "a b"]) := by decide

example : jsonStringify (jsonObj [("method", Json.str "banevent")])
    = "\x7b\"method\":\"banevent\"\x7d" := by decide

example : jsonParse (jsonStringify (jsonObj [("a", jsonObj [("b", Json.num (-7))]), ("c", Json.bool false)]))
    = some (jsonObj [("a", jsonObj [("b", Json.num (-7))]), ("c", Json.bool false)]) := by decide

example : jsonStringify (Json.str (String.mk [Char.ofNat 31, Char.ofNat 10, '\\']))
    = String.mk ('"' :: '\\' :: 'u' :: '0' :: '0' :: '1' :: 'f' :: '\\' :: 'n' :: '\\' :: '\\' :: ['"']) := by decide

theorem digitCh_spec : ∀ n, n < 10 → digitVal (digitCh n) = n ∧ isDigitCh (digitCh n) = true := by
  decide

theorem natCharsF_fuel : ∀ n f g, n < f → n < g → natCharsF f n = natCharsF g n := by
  intro n
  induction n using Nat.strong_induction_on with
  | _ n ih =>
    intro f g hf hg
    match f, g, hf, hg with
    | f + 1, g + 1, _, _ =>
      by_cases h10 : n < 10
      · simp [natCharsF, h10]
      · have hdiv : n / 10 < n := Nat.div_lt_self (by omega) (by omega)
        simp only [natCharsF, if_neg h10]
        rw [ih (n / 10) hdiv f g (by omega) (by omega)]

/-- The recursive description of `natChars`, independent of fuel. -/
theorem natChars_unfold (n : Nat) :
    natChars n = if n < 10 then [digitCh n] else natChars (n / 10) ++ [digitCh (n % 10)] := by
  have hstep : natCharsF (n + 1) n
      = if n < 10 then [digitCh n] else natCharsF n (n / 10) ++ [digitCh (n % 10)] := by
    rw [natCharsF.eq_def]
  rw [natChars, hstep]
  by_cases h10 : n < 10
  · simp [h10]
  · simp only [if_neg h10]
    rw [natCharsF_fuel (n / 10) n (n / 10 + 1) (by omega) (by omega)]
    rfl

theorem natChars_ne_nil (n : Nat) : natChars n ≠ [] := by
  rw [natChars_unfold]
  by_cases h10 : n < 10 <;> simp [h10]

theorem natChars_digits (n : Nat) : ∀ c ∈ natChars n, isDigitCh c = true := by
  induction n using Nat.strong_induction_on with
  | _ n ih =>
    rw [natChars_unfold]
    by_cases h10 : n < 10
    · simp only [if_pos h10, List.mem_singleton]
      intro c hc
      subst hc
      exact (digitCh_spec n h10).2
    · simp only [if_neg h10, List.mem_append, List.mem_singleton]
      rintro c (hc | hc)
      · exact ih (n / 10) (Nat.div_lt_self (by omega) (by omega)) c hc
      · subst hc
        exact (digitCh_spec (n % 10) (Nat.mod_lt _ (by omega))).2

theorem natChars_head (n : Nat) : ∃ c t, natChars n = c :: t ∧ isDigitCh c = true := by
  match h : natChars n with
  | [] => exact absurd h (natChars_ne_nil n)
  | c :: t =>
    refine ⟨c, t, rfl, natChars_digits n c ?_⟩
    rw [h]
    exact List.mem_cons_self c t

theorem foldl_decAcc_shift (ds : List Char) :
    ∀ a : Nat, ds.foldl decAcc a = a * 10 ^ ds.length + ds.foldl decAcc 0 := by
  induction ds with
  | nil => intro a; simp
  | cons d ds ih =>
    intro a
    simp only [List.foldl_cons, List.length_cons]
    rw [ih (decAcc a d), ih (decAcc 0 d)]
    simp only [decAcc]
    ring

theorem foldl_decAcc_natChars (n : Nat) : (natChars n).foldl decAcc 0 = n := by
  induction n using Nat.strong_induction_on with
  | _ n ih =>
    rw [natChars_unfold]
    by_cases h10 : n < 10
    · simp [if_pos h10, decAcc, (digitCh_spec n h10).1]
    · have hdiv : n / 10 < n := Nat.div_lt_self (by omega) (by omega)
      have hdig := (digitCh_spec (n % 10) (Nat.mod_lt _ (by omega))).1
      simp only [if_neg h10, List.foldl_append, List.foldl_cons, List.foldl_nil, ih _ hdiv,
        decAcc, hdig]
      omega

theorem munchDigits_run (ds : List Char) (hds : ∀ c ∈ ds, isDigitCh c = true) :
    ∀ (acc : Nat) (rest : List Char), nonDigitStart rest = true →
      munchDigits acc (ds ++ rest) = (ds.foldl decAcc acc, rest) := by
  induction ds with
  | nil =>
    intro acc rest hr
    match rest, hr with
    | [], _ => rfl
    | c :: r, hr =>
      have hc : isDigitCh c = false := by
        simpa [nonDigitStart] using hr
      simp [munchDigits, hc]
  | cons d ds ih =>
    intro acc rest hr
    have hd : isDigitCh d = true := hds d (List.mem_cons_self d ds)
    simp only [List.cons_append, munchDigits, if_pos hd, List.foldl_cons]
    exact ih (fun c hc => hds c (List.mem_cons_of_mem d hc)) _ rest hr

theorem parseNatNum_natChars (n : Nat) (rest : List Char) (hr : nonDigitStart rest = true) :
    parseNatNum (natChars n ++ rest) = some (n, rest) := by
  obtain ⟨c, t, hct, hc⟩ := natChars_head n
  have hall := natChars_digits n
  have hfold : t.foldl decAcc (digitVal c) = n := by
    have h0 := foldl_decAcc_natChars n
    rw [hct] at h0
    simpa [decAcc] using h0
  rw [hct] at hall ⊢
  simp only [List.cons_append, parseNatNum, if_pos hc]
  rw [munchDigits_run t (fun x hx => hall x (List.mem_cons_of_mem c hx)) _ rest hr, hfold]

/-! One-step dispatch descriptions of `parseJsonValue`, one per leading
character class, so the round-trip induction can unfold the parser without
reasoning under the full mutual-recursion equation. -/
theorem parseJsonValue_digit (f : Nat) (c : Char) (r : List Char) (hc : isDigitCh c = true) :
    parseJsonValue (f + 1) (c :: r)
      = (parseNatNum (c :: r)).map (fun p => (Json.num (p.1 : Int), p.2)) := by
  rw [parseJsonValue.eq_def]
  simp only [hc, if_true]

theorem parseJsonValue_minus (f : Nat) (r : List Char) :
    parseJsonValue (f + 1) ('-' :: r)
      = (parseNatNum r).map (fun p => (Json.num (-(p.1 : Int)), p.2)) := by
  rw [parseJsonValue.eq_def]; rfl

theorem parseJsonValue_quote (f : Nat) (r : List Char) :
    parseJsonValue (f + 1) ('"' :: r)
      = (parseStringRest r).map (fun p => (Json.str (String.mk p.1), p.2)) := by
  rw [parseJsonValue.eq_def]; rfl

theorem parseJsonValue_lbrack (f : Nat) (c2 : Char) (r2 : List Char) :
    parseJsonValue (f + 1) ('[' :: c2 :: r2)
      = (if c2 = ']' then some (Json.arr .nil, r2)
         else (parseJsonItems f (c2 :: r2)).map (fun p => (Json.arr p.1, p.2))) := by
  rw [parseJsonValue.eq_def]; rfl

theorem parseJsonValue_lbrace (f : Nat) (c2 : Char) (r2 : List Char) :
    parseJsonValue (f + 1) (braceL :: c2 :: r2)
      = (if c2 = braceR then some (Json.obj .nil, r2)
         else (parseJsonFields f (c2 :: r2)).map (fun p => (Json.obj p.1, p.2))) := by
  rw [parseJsonValue.eq_def]; rfl

theorem parseJsonValue_null (f : Nat) (r : List Char) :
    parseJsonValue (f + 1) ('n' :: 'u' :: 'l' :: 'l' :: r) = some (Json.null, r) := by
  rw [parseJsonValue.eq_def]; rfl

theorem parseJsonValue_true (f : Nat) (r : List Char) :
    parseJsonValue (f + 1) ('t' :: 'r' :: 'u' :: 'e' :: r) = some (Json.bool true, r) := by
  rw [parseJsonValue.eq_def]; rfl

theorem parseJsonValue_false (f : Nat) (r : List Char) :
    parseJsonValue (f + 1) ('f' :: 'a' :: 'l' :: 's' :: 'e' :: r)
      = some (Json.bool false, r) := by
  rw [parseJsonValue.eq_def]; rfl

theorem parseJsonValue_natChars (f : Nat) (n : Nat) (rest : List Char)
    (hr : nonDigitStart rest = true) :
    parseJsonValue (f + 1) (natChars n ++ rest) = some (Json.num (n : Int), rest) := by
  obtain ⟨c, t, hct, hc⟩ := natChars_head n
  rw [hct, List.cons_append, parseJsonValue_digit f c (t ++ rest) hc, ← List.cons_append,
    ← hct, parseNatNum_natChars n rest hr]
  rfl

theorem parseJsonValue_intChars (f : Nat) (i : Int) (rest : List Char)
    (hr : nonDigitStart rest = true) :
    parseJsonValue (f + 1) (intChars i ++ rest) = some (Json.num i, rest) := by
  by_cases hneg : i < 0
  · simp only [intChars, if_pos hneg, List.cons_append]
    rw [parseJsonValue_minus, parseNatNum_natChars i.natAbs rest hr]
    show some (Json.num (-(i.natAbs : Int)), rest) = some (Json.num i, rest)
    refine congrArg (fun z => some (Json.num z, rest)) ?_
    omega
  · simp only [intChars, if_neg hneg]
    rw [parseJsonValue_natChars f i.natAbs rest hr]
    refine congrArg (fun z => some (Json.num z, rest)) ?_
    omega

theorem hexNibble_hexDigitCh : ∀ n, n < 16 → hexNibble (hexDigitCh n) = some n := by decide

theorem parseStringRest_shortEsc (e ch : Char) (rest : List Char)
    (he : escCode e = some ch) :
    parseStringRest ('\\' :: e :: rest)
      = (parseStringRest rest).map (fun p => (ch :: p.1, p.2)) := by
  rw [parseStringRest.eq_def]
  simp only [if_neg (by decide : ¬ (('\\' : Char) = '"')), if_pos rfl]
  rw [escCode.eq_def] at he
  split at he
  all_goals (cases he)
  all_goals rfl

theorem parseStringRest_escape (c : Char) (rest : List Char) :
    parseStringRest (jsEscapeChar c ++ rest)
      = (parseStringRest rest).map (fun p => (c :: p.1, p.2)) := by
  by_cases h1 : c = '"'
  · subst h1
    rw [show jsEscapeChar '"' ++ rest = '\\' :: '"' :: rest from rfl]
    exact parseStringRest_shortEsc '"' '"' rest rfl
  by_cases h2 : c = '\\'
  · subst h2
    rw [show jsEscapeChar '\\' ++ rest = '\\' :: '\\' :: rest from rfl]
    exact parseStringRest_shortEsc '\\' '\\' rest rfl
  by_cases h3 : c.toNat = 8
  · have hc : c = Char.ofNat 8 := by rw [← h3, Char.ofNat_toNat]
    subst hc
    rw [show jsEscapeChar (Char.ofNat 8) ++ rest = '\\' :: 'b' :: rest from rfl]
    exact parseStringRest_shortEsc 'b' (Char.ofNat 8) rest rfl
  by_cases h4 : c.toNat = 9
  · have hc : c = Char.ofNat 9 := by rw [← h4, Char.ofNat_toNat]
    subst hc
    rw [show jsEscapeChar (Char.ofNat 9) ++ rest = '\\' :: 't' :: rest from rfl]
    exact parseStringRest_shortEsc 't' (Char.ofNat 9) rest rfl
  by_cases h5 : c.toNat = 10
  · have hc : c = Char.ofNat 10 := by rw [← h5, Char.ofNat_toNat]
    subst hc
    rw [show jsEscapeChar (Char.ofNat 10) ++ rest = '\\' :: 'n' :: rest from rfl]
    exact parseStringRest_shortEsc 'n' (Char.ofNat 10) rest rfl
  by_cases h6 : c.toNat = 12
  · have hc : c = Char.ofNat 12 := by rw [← h6, Char.ofNat_toNat]
    subst hc
    rw [show jsEscapeChar (Char.ofNat 12) ++ rest = '\\' :: 'f' :: rest from rfl]
    exact parseStringRest_shortEsc 'f' (Char.ofNat 12) rest rfl
  by_cases h7 : c.toNat = 13
  · have hc : c = Char.ofNat 13 := by rw [← h7, Char.ofNat_toNat]
    subst hc
    rw [show jsEscapeChar (Char.ofNat 13) ++ rest = '\\' :: 'r' :: rest from rfl]
    exact parseStringRest_shortEsc 'r' (Char.ofNat 13) rest rfl
  by_cases h8 : c.toNat < 32
  · have hhi : c.toNat / 16 < 16 := by omega
    have hlo : c.toNat % 16 < 16 := Nat.mod_lt _ (by omega)
    simp only [jsEscapeChar, if_neg h1, if_neg h2, if_neg h3, if_neg h4, if_neg h5,
      if_neg h6, if_neg h7, if_pos h8, List.cons_append, List.nil_append]
    rw [parseStringRest.eq_def]
    simp only [hexNibble_hexDigitCh _ hhi, hexNibble_hexDigitCh _ hlo]
    have harith : c.toNat / 16 * 16 + c.toNat % 16 = c.toNat := by omega
    have hzero : hexNibble '0' = some 0 := by decide
    simp only [hzero]
    simp only [show ∀ a b : Nat, (0 : Nat) * 4096 + 0 * 256 + a * 16 + b = a * 16 + b from
      fun a b => by omega]
    simp [harith, Char.ofNat_toNat]
  · simp only [jsEscapeChar, if_neg h1, if_neg h2, if_neg h3, if_neg h4, if_neg h5,
      if_neg h6, if_neg h7, if_neg h8, List.cons_append, List.nil_append]
    rw [parseStringRest.eq_def]
    simp only [if_neg h1, if_neg h2]

theorem parseStringRest_escapeList (cs : List Char) :
    ∀ rest : List Char, parseStringRest (escapeList cs ++ '"' :: rest) = some (cs, rest) := by
  induction cs with
  | nil =>
    intro rest
    show parseStringRest ([] ++ '"' :: rest) = _
    rw [List.nil_append, parseStringRest.eq_def]
    rfl
  | cons c cs ih =>
    intro rest
    rw [escapeList, List.append_assoc, parseStringRest_escape, ih rest]
    rfl

theorem parseJsonValue_string (f : Nat) (s : String) (rest : List Char) :
    parseJsonValue (f + 1) (stringifyString s ++ rest) = some (Json.str s, rest) := by
  show parseJsonValue (f + 1) ('"' :: (escapeList s.data ++ ['"'] ++ rest)) = _
  rw [parseJsonValue_quote, List.append_assoc, List.cons_append, List.nil_append,
    parseStringRest_escapeList]
  rfl

theorem isDigitCh_ne_rbrack {c : Char} (hc : isDigitCh c = true) : ¬ c = ']' := by
  intro h
  subst h
  exact absurd hc (by decide)

theorem intChars_head (i : Int) : ∃ c t, intChars i = c :: t ∧ ¬ c = ']' := by
  by_cases hneg : i < 0
  · exact ⟨'-', natChars i.natAbs, by simp [intChars, hneg], by decide⟩
  · obtain ⟨c, t, hct, hc⟩ := natChars_head i.natAbs
    exact ⟨c, t, by simp [intChars, hneg, hct], isDigitCh_ne_rbrack hc⟩

theorem stringifyChars_head (j : Json) :
    ∃ c t, stringifyChars j = c :: t ∧ ¬ c = ']' := by
  cases j with
  | null => exact ⟨'n', ['u', 'l', 'l'], rfl, by decide⟩
  | bool b =>
    cases b with
    | true => exact ⟨'t', ['r', 'u', 'e'], rfl, by decide⟩
    | false => exact ⟨'f', ['a', 'l', 's', 'e'], rfl, by decide⟩
  | num i =>
    obtain ⟨c, t, hct, hc⟩ := intChars_head i
    exact ⟨c, t, hct, hc⟩
  | str s => exact ⟨'"', escapeList s.data ++ ['"'], rfl, by decide⟩
  | arr es =>
    refine ⟨'[', stringifyItems es ++ [']'], ?_, by decide⟩
    simp [stringifyChars]
  | obj fs =>
    refine ⟨braceL, stringifyFields fs ++ [braceR], ?_, by decide⟩
    simp [stringifyChars]

theorem braceR_ne_comma : ¬ (braceR = ',') := by decide

mutual
theorem rtVal : ∀ (j : Json) (f : Nat) (rest : List Char),
    (stringifyChars j).length < f → nonDigitStart rest = true →
    parseJsonValue f (stringifyChars j ++ rest) = some (j, rest)
  | .null, 0, _, hf, _ => absurd hf (Nat.not_lt_zero _)
  | .null, f + 1, rest, _, _ => parseJsonValue_null f rest
  | .bool true, 0, _, hf, _ => absurd hf (Nat.not_lt_zero _)
  | .bool true, f + 1, rest, _, _ => parseJsonValue_true f rest
  | .bool false, 0, _, hf, _ => absurd hf (Nat.not_lt_zero _)
  | .bool false, f + 1, rest, _, _ => parseJsonValue_false f rest
  | .num i, 0, _, hf, _ => absurd hf (Nat.not_lt_zero _)
  | .num i, f + 1, rest, _, hr => parseJsonValue_intChars f i rest hr
  | .str s, 0, _, hf, _ => absurd hf (Nat.not_lt_zero _)
  | .str s, f + 1, rest, _, _ => parseJsonValue_string f s rest
  | .arr .nil, 0, _, hf, _ => absurd hf (Nat.not_lt_zero _)
  | .arr .nil, f + 1, rest, _, _ => by
      show parseJsonValue (f + 1) ('[' :: ']' :: rest) = some (Json.arr .nil, rest)
      rw [parseJsonValue_lbrack]
      simp
  | .arr (.cons e es), 0, _, hf, _ => absurd hf (Nat.not_lt_zero _)
  | .arr (.cons e es), f + 1, rest, hf, _ => by
      obtain ⟨c, t, hct, hne⟩ := stringifyChars_head e
      have hlen : (stringifyItems (.cons e es)).length + 1 < f := by
        simp only [stringifyChars, List.length_cons, List.length_append,
          List.length_nil] at hf
        omega
      have hitems : stringifyItems (.cons e es) = c :: (t ++ stringifyItemsTail es) := by
        simp [stringifyItems, hct]
      have hrw : stringifyChars (.arr (.cons e es)) ++ rest
          = '[' :: c :: ((t ++ stringifyItemsTail es) ++ ']' :: rest) := by
        simp [stringifyChars, hitems, List.append_assoc]
      have hback : c :: ((t ++ stringifyItemsTail es) ++ ']' :: rest)
          = stringifyItems (.cons e es) ++ ']' :: rest := by
        simp [hitems, List.append_assoc]
      rw [hrw, parseJsonValue_lbrack, if_neg hne, hback,
        rtItems e es f rest hlen]
      rfl
  | .obj .nil, 0, _, hf, _ => absurd hf (Nat.not_lt_zero _)
  | .obj .nil, f + 1, rest, _, _ => by
      show parseJsonValue (f + 1) (braceL :: braceR :: rest) = some (Json.obj .nil, rest)
      rw [parseJsonValue_lbrace]
      simp
  | .obj (.cons k v fs), 0, _, hf, _ => absurd hf (Nat.not_lt_zero _)
  | .obj (.cons k v fs), f + 1, rest, hf, _ => by
      have hlen : (stringifyFields (.cons k v fs)).length + 1 < f := by
        simp only [stringifyChars, List.length_cons, List.length_append,
          List.length_nil] at hf
        omega
      have hfields : stringifyFields (.cons k v fs)
          = '"' :: ((escapeList k.data ++ ['"']) ++ ':' :: (stringifyChars v ++ stringifyFieldsTail fs)) := by
        simp [stringifyFields, stringifyString]
      have hrw : stringifyChars (.obj (.cons k v fs)) ++ rest
          = braceL :: '"' :: (((escapeList k.data ++ ['"']) ++ ':' :: (stringifyChars v ++ stringifyFieldsTail fs)) ++ braceR :: rest) := by
        simp [stringifyChars, hfields, List.append_assoc]
      have hback : '"' :: (((escapeList k.data ++ ['"']) ++ ':' :: (stringifyChars v ++ stringifyFieldsTail fs)) ++ braceR :: rest)
          = stringifyFields (.cons k v fs) ++ braceR :: rest := by
        simp [hfields, List.append_assoc]
      rw [hrw, parseJsonValue_lbrace, if_neg (by decide : ¬ ('"' = braceR)), hback,
        rtFields k v fs f rest hlen]
      rfl
termination_by j _ _ _ _ => sizeOf j

theorem rtItems : ∀ (e : Json) (es : JsonList) (f : Nat) (rest : List Char),
    (stringifyItems (.cons e es)).length + 1 < f →
    parseJsonItems f (stringifyItems (.cons e es) ++ ']' :: rest)
      = some (JsonList.cons e es, rest)
  | _, _, 0, _, hf => absurd hf (Nat.not_lt_zero _)
  | e, .nil, f + 1, rest, hf => by
      have hfe : (stringifyChars e).length < f := by
        simp only [stringifyItems, stringifyItemsTail, List.length_append,
          List.length_nil] at hf
        omega
      have hv := rtVal e f (']' :: rest) hfe rfl
      have hrw : stringifyItems (.cons e .nil) ++ ']' :: rest
          = stringifyChars e ++ ']' :: rest := by
        simp [stringifyItems, stringifyItemsTail]
      rw [hrw, parseJsonItems.eq_def]
      simp [hv]
  | e, .cons e2 es2, f + 1, rest, hf => by
      have hfe : (stringifyChars e).length < f := by
        simp only [stringifyItems, stringifyItemsTail, List.length_append,
          List.length_cons, List.length_nil] at hf
        omega
      have hfx : (stringifyItems (.cons e2 es2)).length + 1 < f := by
        simp only [stringifyItems, stringifyItemsTail, List.length_append,
          List.length_cons, List.length_nil] at hf ⊢
        omega
      have hv := rtVal e f (',' :: (stringifyItems (.cons e2 es2) ++ ']' :: rest)) hfe rfl
      have hrec := rtItems e2 es2 f rest hfx
      have hrw : stringifyItems (.cons e (.cons e2 es2)) ++ ']' :: rest
          = stringifyChars e ++ (',' :: (stringifyItems (.cons e2 es2) ++ ']' :: rest)) := by
        simp [stringifyItems, stringifyItemsTail, List.append_assoc]
      rw [hrw, parseJsonItems.eq_def]
      simp [hv, hrec]
termination_by e es _ _ _ => sizeOf (JsonList.cons e es)

theorem rtFields : ∀ (k : String) (v : Json) (fs : JsonFields) (f : Nat) (rest : List Char),
    (stringifyFields (.cons k v fs)).length + 1 < f →
    parseJsonFields f (stringifyFields (.cons k v fs) ++ braceR :: rest)
      = some (JsonFields.cons k v fs, rest)
  | _, _, _, 0, _, hf => absurd hf (Nat.not_lt_zero _)
  | k, v, .nil, f + 1, rest, hf => by
      have hfe : (stringifyChars v).length < f := by
        simp only [stringifyFields, stringifyFieldsTail, stringifyString,
          List.length_append, List.length_cons, List.length_nil] at hf
        omega
      have hv := rtVal v f (braceR :: rest) hfe rfl
      have hrw : stringifyFields (.cons k v .nil) ++ braceR :: rest
          = '"' :: (escapeList k.data ++ '"' :: (':' :: (stringifyChars v ++ braceR :: rest))) := by
        simp [stringifyFields, stringifyFieldsTail, stringifyString, List.append_assoc]
      rw [hrw, parseJsonFields.eq_def]
      simp [parseStringRest_escapeList, hv, braceR_ne_comma]
  | k, v, .cons k2 v2 fs2, f + 1, rest, hf => by
      have hfe : (stringifyChars v).length < f := by
        simp only [stringifyFields, stringifyFieldsTail, stringifyString,
          List.length_append, List.length_cons, List.length_nil] at hf
        omega
      have hfx : (stringifyFields (.cons k2 v2 fs2)).length + 1 < f := by
        simp only [stringifyFields, stringifyFieldsTail, stringifyString,
          List.length_append, List.length_cons, List.length_nil] at hf ⊢
        omega
      have hv := rtVal v f
        (',' :: (stringifyFields (.cons k2 v2 fs2) ++ braceR :: rest)) hfe rfl
      have hrec := rtFields k2 v2 fs2 f rest hfx
      have hrw : stringifyFields (.cons k v (.cons k2 v2 fs2)) ++ braceR :: rest
          = '"' :: (escapeList k.data ++ '"' :: (':' :: (stringifyChars v
              ++ ',' :: (stringifyFields (.cons k2 v2 fs2) ++ braceR :: rest)))) := by
        simp [stringifyFields, stringifyFieldsTail, stringifyString, List.append_assoc]
      rw [hrw, parseJsonFields.eq_def]
      simp [parseStringRest_escapeList, hv, hrec]
termination_by k v fs _ _ _ => sizeOf (JsonFields.cons k v fs)
end

/-- The codec round trip: what `JSON.stringify` writes, `JSON.parse` reads
back unchanged. -/
theorem jsonParse_stringify (j : Json) : jsonParse (jsonStringify j) = some j := by
  have h := rtVal j ((stringifyChars j).length + 1) [] (by omega) rfl
  rw [List.append_nil] at h
  show (match parseJsonValue ((stringifyChars j).length + 1) (stringifyChars j) with
    | some (j, []) => some j
    | _ => none) = some j
  rw [h]

example : btoa "null" = some "bnVsbA==" := by decide

example : sha256HexOfString ""
    = "e3b0c44298fc1c149afbf4c8996fb92427ae41e4649b934ca495991b7852b855" := by decide

example : sha256HexOfString "abc"
    = "ba7816bf8f01cfea414140de5dae2223b00361a396177a9cb410ff61f20015ad" := by decide

theorem jsonListOf_get? (l : List Json) : ∀ i : Nat, (jsonListOf l).get? i = l[i]? := by
  induction l with
  | nil => intro i; cases i <;> simp [jsonListOf, JsonList.get?]
  | cons e es ih =>
    intro i
    cases i with
    | zero => simp [jsonListOf, JsonList.get?]
    | succ n => simpa [jsonListOf, JsonList.get?] using ih n

/-! ### The frozen claims -/

/-- C1: for every method name and ordered parameter list (entries strings,
numbers, or omitted), the body `callRelayAPI` sends deserializes back to
exactly the object with the `method` and `params` properties, parameter
order preserved; an omitted entry occupies its position (JSON has no
`undefined`, so `JSON.stringify` holds the position with `null`).  In
particular the `banevent` call serializes its params as
`["eventid1","off-topic"]`, not reordered and not dropped. -/
theorem requestBody_roundtrip :
    (∀ (method : String) (params : List RpcParam),
      jsonParse (requestBody method params) = some (rpcRequestJson method params)
      ∧ ∀ i : Nat, (rpcParamsJson params).get? i = (params[i]?).map RpcParam.toJson)
    ∧ requestBody "banevent" [.str "eventid1", .str "off-topic"]
        = "\x7b\"method\":\"banevent\",\"params\":[\"eventid1\",\"off-topic\"]\x7d" := by
  refine ⟨fun method params => ⟨jsonParse_stringify _, fun i => ?_⟩, by decide⟩
  rw [rpcParamsJson, jsonListOf_get?, List.getElem?_map]

/-- C2: without the signer capability (`window.nostr` absent) the call
fails with the extension-not-found error before any network request: the
fetch trace is empty and the error surfaces to the caller (no retry); the
header builders themselves fail the same way. -/
theorem callRelayAPI_noSigner (w : World) (relayUrl method : String)
    (params : List RpcParam) (hn : w.signer = none) :
    callRelayAPI w relayUrl method params = (.error "NIP-07 extension not found", [])
    ∧ ∀ (url m : String) (p : Option String) (t : Nat),
        createNip98Auth none url m p t = .error "NIP-07 extension not found" := by
  constructor
  · simp only [callRelayAPI, hn]
    rfl
  · intro url m p t
    rfl

theorem callRelayAPI_noSigner_witness :
    callRelayAPI ⟨none, fun _ => FetchOutcome.networkError "offline", 1700000000000⟩
        "wss://relay.example.com" "banevent" [RpcParam.str "eventid1"]
      = (.error "NIP-07 extension not found", []) :=
  (callRelayAPI_noSigner _ _ _ _ rfl).1

/-- C3: an HTTP response with status at least 300 is never ok, so the call
surfaces the HTTP failure carrying that status code, whatever the response
body holds. -/
theorem callRelayAPI_httpError (w : World) (relayUrl method : String)
    (params : List RpcParam) (h : String) (r : HttpResponse)
    (hAuth : createAuthHeader w.signer (httpUrlOfRelayUrl relayUrl) "POST"
        (some (requestBody method params)) w.nowMs = .ok h)
    (hFetch : ∀ c, w.fetch c = .response r)
    (hStatus : 300 ≤ r.status) :
    (callRelayAPI w relayUrl method params).1
      = .error (httpErrorMessage r.status r.statusText) := by
  have hok : responseOk r = false := by
    simp only [responseOk, Bool.and_eq_false_iff]
    right
    simp
    omega
  simp only [callRelayAPI, hAuth, hFetch, hok]
  rfl

theorem callRelayAPI_httpError_witness :
    (callRelayAPI
        ⟨some (fun _ => Json.null),
         fun _ => FetchOutcome.response ⟨301, "Moved Permanently", "any body at all"⟩,
         1700000000000⟩
        "wss://relay.example.com" "banevent" [RpcParam.str "eventid1"]).1
      = .error "HTTP 301: Moved Permanently" :=
  callRelayAPI_httpError _ _ _ _ "Nostr bnVsbA==" ⟨301, "Moved Permanently", "any body at all"⟩
    rfl (fun _ => rfl) (by decide)

/-- C4, as frozen, is false on the code at two points, exhibited here.
First: a response with status 100 (below 300, but outside `Response.ok`'s
200-299) and body `\x7b"result":7\x7d` does not return the result field —
the call fails with the HTTP error.  Second: a status-200 response whose
body is `\x7b"error":"","result":7\x7d` carries a top-level `error` field,
yet the call does not fail with that field's (empty) string: JS truthiness
(`if (result.error)`) treats `""` as absent and the call returns the
result field instead. -/
theorem callRelayAPI_unwrap_cex :
    (callRelayAPI
        ⟨some (fun _ => Json.null),
         fun _ => FetchOutcome.response ⟨100, "Continue", "\x7b\"result\":7\x7d"⟩, 0⟩
        "wss://relay.example.com" "listbannedevents" []).1
      = .error "HTTP 100: Continue"
    ∧ (callRelayAPI
        ⟨some (fun _ => Json.null),
         fun _ => FetchOutcome.response ⟨200, "OK", "\x7b\"error\":\"\",\"result\":7\x7d"⟩, 0⟩
        "wss://relay.example.com" "listbannedevents" []).1
      = .ok (some (Json.num 7))
    ∧ ¬ ((callRelayAPI
        ⟨some (fun _ => Json.null),
         fun _ => FetchOutcome.response ⟨200, "OK", "\x7b\"error\":\"\",\"result\":7\x7d"⟩, 0⟩
        "wss://relay.example.com" "listbannedevents" []).1
      = .error "") := by
  refine ⟨rfl, rfl, fun h => ?_⟩
  have h2 : (Except.ok (some (Json.num 7)) : Except String (Option Json))
      = .error "" := h
  exact Except.noConfusion h2

/-- When a property is read on a non-null value, no TypeError arises and
the access is the plain lookup. -/
theorem jsGetProp_of_ne_null (j : Json) (key : String) (hj : ¬ j = Json.null) :
    jsGetProp j key = .ok (jsonGet j key) := by
  cases j with
  | null => exact absurd rfl hj
  | bool b => rfl
  | num i => rfl
  | str s => rfl
  | arr es => rfl
  | obj fs => rfl

/-- A value that has a property is an object, hence not null. -/
theorem jsonGet_some_ne_null (j : Json) (key : String) (v : Json)
    (h : jsonGet j key = some v) : ¬ j = Json.null := by
  intro hj
  subst hj
  exact Option.noConfusion h

/-- C4 amended: for a response in the ok range (200-299) whose body is a
serialized JSON value: a body that is the JSON `null` makes the call fail
with the TypeError thrown by reading `result.error` on null; otherwise a
truthy `error` field (for a string field: non-empty) surfaces as the
failure message even though the HTTP status was successful, and an absent
— or empty-string, hence falsy — `error` field makes the call return the
`result` field unchanged (the serializer/parser round trip makes this the
identity on structured values). -/
theorem callRelayAPI_unwrap (w : World) (relayUrl method : String)
    (params : List RpcParam) (h : String) (r : HttpResponse) (j : Json)
    (hAuth : createAuthHeader w.signer (httpUrlOfRelayUrl relayUrl) "POST"
        (some (requestBody method params)) w.nowMs = .ok h)
    (hFetch : ∀ c, w.fetch c = .response r)
    (hOk : 200 ≤ r.status ∧ r.status ≤ 299)
    (hBody : r.body = jsonStringify j) :
    (j = Json.null →
      (callRelayAPI w relayUrl method params).1
        = .error "TypeError: Cannot read properties of null (reading 'error')")
    ∧ (¬ j = Json.null → jsonGet j "error" = none →
      (callRelayAPI w relayUrl method params).1 = .ok (jsonGet j "result"))
    ∧ (∀ e : String, jsonGet j "error" = some (Json.str e) → ¬ e = "" →
      (callRelayAPI w relayUrl method params).1 = .error e)
    ∧ (jsonGet j "error" = some (Json.str "") →
      (callRelayAPI w relayUrl method params).1 = .ok (jsonGet j "result")) := by
  have hok : responseOk r = true := by
    simp only [responseOk, Bool.and_eq_true, decide_eq_true_eq]
    omega
  refine ⟨fun hnull => ?_, fun hj hno => ?_, fun e he hne => ?_, fun hemp => ?_⟩
  · subst hnull
    simp only [callRelayAPI, hAuth, hFetch, hok, hBody, jsonParse_stringify, if_true]
    rfl
  · simp only [callRelayAPI, hAuth, hFetch, hok, hBody, jsonParse_stringify,
      jsGetProp_of_ne_null j _ hj, hno, if_true]
  · have hj := jsonGet_some_ne_null j "error" (Json.str e) he
    simp only [callRelayAPI, hAuth, hFetch, hok, hBody, jsonParse_stringify,
      jsGetProp_of_ne_null j _ hj, he, if_true]
    simp [jsTruthy, hne, jsStr]
  · have hj := jsonGet_some_ne_null j "error" (Json.str "") hemp
    simp only [callRelayAPI, hAuth, hFetch, hok, hBody, jsonParse_stringify,
      jsGetProp_of_ne_null j _ hj, hemp, if_true]
    simp [jsTruthy, jsGetProp_of_ne_null j _ hj]

theorem callRelayAPI_unwrap_witness :
    (callRelayAPI resultWorld "wss://relay.example.com" "listbannedpubkeys" []).1
      = .ok (some (jsonArr [jsonObj [("pubkey", Json.str "npub1alice"),
                                     ("reason", Json.str "spam")]]))
    ∧ (callRelayAPI errorWorld "wss://relay.example.com" "banevent" []).1
      = .error "unauthorized"
    ∧ (callRelayAPI nullBodyWorld "wss://relay.example.com" "listbannedpubkeys" []).1
      = .error "TypeError: Cannot read properties of null (reading 'error')" := by
  refine ⟨?_, ?_, ?_⟩
  · exact (callRelayAPI_unwrap resultWorld "wss://relay.example.com" "listbannedpubkeys" []
      "Nostr bnVsbA==" ⟨200, "OK", jsonStringify sampleResultJson⟩ sampleResultJson
      rfl (fun _ => rfl) (by decide) rfl).2.1 (by decide) rfl
  · exact (callRelayAPI_unwrap errorWorld "wss://relay.example.com" "banevent" []
      "Nostr bnVsbA==" ⟨200, "OK", jsonStringify sampleErrorJson⟩ sampleErrorJson
      rfl (fun _ => rfl) (by decide) rfl).2.2.1 "unauthorized" rfl (by decide)
  · exact (callRelayAPI_unwrap nullBodyWorld "wss://relay.example.com" "listbannedpubkeys" []
      "Nostr bnVsbA==" ⟨200, "OK", jsonStringify Json.null⟩ Json.null
      rfl (fun _ => rfl) (by decide) rfl).1 rfl

theorem bytesToHex_length (bs : List Nat) : (bytesToHex bs).length = 2 * bs.length := by
  induction bs with
  | nil => rfl
  | cons b bs ih =>
    simp only [bytesToHex, byteHexChars, List.cons_append, List.nil_append,
      List.length_cons, ih]
    omega

theorem sha256_length (msg : List Nat) : (sha256 msg).length = 32 := by
  rw [sha256]
  obtain ⟨a, b, c, d, e, f, g, h⟩ := (chunks64 (sha256Pad msg)).foldl sha256Block sha256Init
  simp [be32Bytes]

theorem sha256HexOfString_length (s : String) : (sha256HexOfString s).length = 64 := by
  show (bytesToHex (sha256 (utf8Bytes s))).length = 64
  rw [bytesToHex_length, sha256_length]

/-- C5, as frozen, fails at the empty body: `createAuthHeader` guards the
hash with `if (payload)`, and JS truthiness makes the empty string count
as no payload, so the attestation built for the body `""` carries no
content-hash tag at all, where the claim requires a third tag holding the
hex SHA-256 digest of `""`. -/
theorem authEvent_emptyBody_cex :
    (authEvent "https://relay.example.com/" "POST" (some "") 1700000000000).tags
      = [["u", "https://relay.example.com/"], ["method", "POST"]]
    ∧ ((authEvent "https://relay.example.com/" "POST" (some "") 1700000000000).tags.map
        (fun t => t.headD "")) = ["u", "method"] :=
  ⟨rfl, rfl⟩

/-- C5 amended: for every nonempty body string B the attestation carries
exactly one extra tag, appended third, whose value is the hex-encoded
SHA-256 digest of B (64 lowercase hex characters); with no body — or with
the empty body, which the truthiness test treats as absent — the tag list
is just the two required tags. -/
theorem authEvent_payloadTag :
    (∀ (url method B : String) (nowMs : Nat), ¬ B = "" →
      (authEvent url method (some B) nowMs).tags
        = [["u", url], ["method", method], ["payload", sha256HexOfString B]]
      ∧ (sha256HexOfString B).length = 64)
    ∧ ∀ (url method : String) (nowMs : Nat),
      (authEvent url method none nowMs).tags = [["u", url], ["method", method]] := by
  constructor
  · intro url method B nowMs hB
    constructor
    · simp [authEvent, payloadTag, hB]
    · exact sha256HexOfString_length B
  · intro url method nowMs
    rfl

theorem authEvent_payloadTag_witness :
    ¬ "abc" = "" ∧
    (authEvent "https://relay.example.com/" "POST" (some "abc") 1700000000000).tags
      = [["u", "https://relay.example.com/"], ["method", "POST"],
         ["payload", "ba7816bf8f01cfea414140de5dae2223b00361a396177a9cb410ff61f20015ad"]] := by
  refine ⟨by decide, ?_⟩
  rw [(authEvent_payloadTag.1 "https://relay.example.com/" "POST" "abc" 1700000000000
    (by decide)).1]
  decide

/-- C6: for every URL and HTTP method the attestation built before signing
has kind 27235, empty content, a tag list beginning with `["u", url]` then
`["method", method]`, and `created_at` equal to the current time in whole
seconds since epoch (`Math.floor(Date.now() / 1000)`). -/
theorem authEvent_shape (url method : String) (payload : Option String) (nowMs : Nat) :
    (authEvent url method payload nowMs).kind = 27235
    ∧ (authEvent url method payload nowMs).content = ""
    ∧ (authEvent url method payload nowMs).created_at = nowMs / 1000
    ∧ (authEvent url method payload nowMs).tags.take 2 = [["u", url], ["method", method]] :=
  ⟨rfl, rfl, rfl, rfl⟩

/-- C7, as frozen, is false for a signed record whose JSON serialization
contains a character above U+00FF (here a relay URL with a CJK character,
which `JSON.stringify` emits verbatim): `btoa` then throws
`InvalidCharacterError`, so the builder fails instead of returning the
`Nostr `-prefixed base64 value. -/
theorem createAuthHeader_scheme_cex :
    createAuthHeader (some (fun _ => wideSignedEvent))
        "https://日relay.example/" "POST" none 1700000000000
      = .error "InvalidCharacterError" := rfl

/-- C7 amended: whenever the signed record's JSON serialization stays in
the Latin-1 range (every character at most U+00FF — true of all-ASCII
events), the builder returns exactly the scheme label `Nostr`, a space,
and the base64 of that serialization; a serialization with a character
above U+00FF makes the builder fail with `btoa`'s invalid-character
error instead. -/
theorem createAuthHeader_scheme (sign : Signer) (url method : String)
    (payload : Option String) (nowMs : Nat)
    (hLatin : ((jsonStringify (sign (authEvent url method payload nowMs))).data.all
        (fun c => c.toNat ≤ 255)) = true) :
    createAuthHeader (some sign) url method payload nowMs
      = .ok ("Nostr " ++ String.mk (base64Chars
          ((jsonStringify (sign (authEvent url method payload nowMs))).data.map
            Char.toNat))) := by
  simp only [createAuthHeader, btoa, hLatin, if_true]

theorem createAuthHeader_scheme_witness :
    createAuthHeader (some (fun _ => Json.obj (.cons "id" (Json.str "00") .nil)))
        "wss://relay.example.com" "POST" none 1700000000000
      = .ok "Nostr eyJpZCI6IjAwIn0=" := by
  rw [createAuthHeader_scheme (fun _ => Json.obj (.cons "id" (Json.str "00") .nil))
    "wss://relay.example.com" "POST" none 1700000000000 (by decide)]
  rfl

/-- C8: the scheme rewrite is the pure string transform of the anchored
regex replace: a leading `ws://` or `wss://` becomes `https://` (the
HTTP(S) scheme used for the administrative calls) with the remainder of
the URL unchanged, and a URL with neither WebSocket scheme prefix is left
unchanged. -/
theorem httpUrlOfRelayUrl_spec :
    (∀ r : String, httpUrlOfRelayUrl ("ws://" ++ r) = "https://" ++ r)
    ∧ (∀ r : String, httpUrlOfRelayUrl ("wss://" ++ r) = "https://" ++ r)
    ∧ ∀ u : String, hasWsScheme u.data = false → httpUrlOfRelayUrl u = u := by
  refine ⟨fun r => ?_, fun r => ?_, fun u hu => ?_⟩
  · obtain ⟨l⟩ := r
    rfl
  · obtain ⟨l⟩ := r
    rfl
  · obtain ⟨l⟩ := u
    show String.mk (httpUrlChars l) = String.mk l
    have : httpUrlChars l = l := by
      rw [httpUrlChars.eq_def]
      split
      · simp [hasWsScheme] at hu
      · simp [hasWsScheme] at hu
      · rfl
    rw [this]

theorem httpUrlOfRelayUrl_spec_witness :
    httpUrlOfRelayUrl "ws://relay.example.com" = "https://relay.example.com"
    ∧ httpUrlOfRelayUrl "wss://relay.example.com" = "https://relay.example.com"
    ∧ httpUrlOfRelayUrl "https://relay.example.com" = "https://relay.example.com" :=
  ⟨httpUrlOfRelayUrl_spec.1 "relay.example.com",
   httpUrlOfRelayUrl_spec.2.1 "relay.example.com",
   httpUrlOfRelayUrl_spec.2.2 "https://relay.example.com" (by decide)⟩

/-- C9: in the EventsList variant, every failure of the underlying call —
missing signer, network error, non-ok status, truthy error field — is
caught; a method whose name starts with `list` then yields the empty
array, while any other method rethrows the failure to the caller. -/
theorem callRelayAPIEvents_catch (w : World) (relayUrl method : String)
    (params : List RpcParam) (e : String)
    (hFail : (callRelayAPI w relayUrl method params).1 = .error e) :
    (startsWithList method = true →
      (callRelayAPIEvents w relayUrl method params).1 = .ok (some (Json.arr .nil)))
    ∧ (startsWithList method = false →
      (callRelayAPIEvents w relayUrl method params).1 = .error e) := by
  constructor
  · intro hl
    simp only [callRelayAPIEvents, hFail, hl, if_true]
  · intro hl
    simp only [callRelayAPIEvents, hFail, hl]
    rfl

theorem callRelayAPIEvents_catch_witness :
    (callRelayAPIEvents ⟨none, fun _ => FetchOutcome.networkError "offline", 0⟩
        "wss://relay.example.com" "listbannedevents" []).1 = .ok (some (Json.arr .nil))
    ∧ (callRelayAPIEvents ⟨none, fun _ => FetchOutcome.networkError "offline", 0⟩
        "wss://relay.example.com" "banevent" [RpcParam.str "eventid1"]).1
      = .error "NIP-07 extension not found" :=
  ⟨(callRelayAPIEvents_catch ⟨none, fun _ => FetchOutcome.networkError "offline", 0⟩
      "wss://relay.example.com" "listbannedevents" [] "NIP-07 extension not found" rfl).1 rfl,
   (callRelayAPIEvents_catch ⟨none, fun _ => FetchOutcome.networkError "offline", 0⟩
      "wss://relay.example.com" "banevent" [RpcParam.str "eventid1"]
      "NIP-07 extension not found" rfl).2 rfl⟩

theorem insertByCreatedAtDesc_sorted (e : NostrEvent) :
    ∀ l : List NostrEvent,
      List.Chain' (fun a b => b.created_at ≤ a.created_at) l →
      List.Chain' (fun a b => b.created_at ≤ a.created_at) (insertByCreatedAtDesc e l) := by
  intro l
  induction l with
  | nil => intro _; simp [insertByCreatedAtDesc]
  | cons x xs ih =>
    intro hl
    rw [insertByCreatedAtDesc]
    by_cases hx : x.created_at ≤ e.created_at
    · rw [if_pos hx]
      exact List.Chain'.cons hx hl
    · rw [if_neg hx]
      rw [List.chain'_cons'] at hl ⊢
      refine ⟨?_, ih hl.2⟩
      intro b hb
      cases xs with
      | nil =>
        simp [insertByCreatedAtDesc] at hb
        subst hb
        omega
      | cons x2 xs2 =>
        rw [insertByCreatedAtDesc] at hb
        by_cases hx2 : x2.created_at ≤ e.created_at
        · rw [if_pos hx2] at hb
          simp at hb
          subst hb
          omega
        · rw [if_neg hx2] at hb
          simp at hb
          subst hb
          exact hl.1 x2 rfl

theorem insertByCreatedAtDesc_perm (e : NostrEvent) :
    ∀ l : List NostrEvent, List.Perm (insertByCreatedAtDesc e l) (e :: l) := by
  intro l
  induction l with
  | nil => simp [insertByCreatedAtDesc]
  | cons x xs ih =>
    rw [insertByCreatedAtDesc]
    by_cases hx : x.created_at ≤ e.created_at
    · rw [if_pos hx]
    · rw [if_neg hx]
      exact (ih.cons x).trans (List.Perm.swap e x xs)

/-- C10: the events query sorts the fetched list with the comparator
`(a, b) => b.created_at - a.created_at`, so the returned list is a
permutation of the fetched events in which every adjacent pair is in
non-increasing (newest-first) `created_at` order. -/
theorem sortEventsByCreatedAtDesc_sorted (l : List NostrEvent) :
    List.Chain' (fun a b => b.created_at ≤ a.created_at) (sortEventsByCreatedAtDesc l)
    ∧ List.Perm (sortEventsByCreatedAtDesc l) l := by
  induction l with
  | nil => exact ⟨List.chain'_nil, List.Perm.refl _⟩
  | cons e es ih =>
    refine ⟨insertByCreatedAtDesc_sorted e _ ih.1, ?_⟩
    exact (insertByCreatedAtDesc_perm e _).trans (ih.2.cons e)
